import Mathlib

/-!
Shallow embedding of the diff-and-execute sync engine of the `synctool`
repository (src/core/comparator.py, src/core/file_ops.py,
src/core/sync_engine.py, src/db/models.py, src/utils/config.py), together
with theorems settling the frozen claims about it.

File-system effects (reading file contents for hashing, stat calls, the
state of the destination tree during an atomic copy) are made explicit as
parameters or small state records; everything else is translated directly
from the Python source.
-/

namespace SyncTool

/-! Data model (src/db/models.py). -/

/-- Model of the `FileStat` dataclass (db/models.py). `mtime_ns` is a Python
int, modelled as `Int`. -/
structure FileStat where
  rel_path : String
  size_bytes : Nat
  mtime_ns : Int
  sha256 : Option String := none
  deriving DecidableEq, Repr

/-- Model of the `FileState` dataclass (db/models.py), the persisted
last-known state row (the `id` database column is omitted). -/
structure FileState where
  source_path : String
  drive_serial : String
  rel_path : String
  size_bytes : Nat
  mtime_ns : Int
  sha256 : Option String := none
  deriving DecidableEq, Repr

/-- Model of the `SyncPlan` dataclass (db/models.py): four lists of plan
entries. Copy/conflict/skip entries are `(from_abs, to_abs, rel_path,
size_bytes)` tuples, delete entries are absolute destination paths. -/
structure SyncPlan where
  to_copy : List (String × String × String × Nat) := []
  to_delete : List String := []
  conflicts : List (String × String × String × Nat) := []
  to_skip : List (String × String × String × Nat) := []
  deriving DecidableEq, Repr

/-- Python `dict.get` on a snapshot represented as an association list. -/
def dictGet {α : Type} (m : List (String × α)) (k : String) : Option α :=
  (m.find? (fun p => p.1 == k)).map (·.2)

/-- The contents of the file system as seen by the hashing code: `readFile`
returns the bytes of a file or `none` when opening/reading raises `OSError`,
and `sha256hex` is the hex digest function applied to those bytes. -/
structure HashEnv where
  readFile : String → Option (List Nat)
  sha256hex : List Nat → String

/-- Model of `_compute_sha256` (comparator.py): hash the file's bytes, but
return the empty string when an `OSError` occurs while reading. -/
def compute_sha256 (env : HashEnv) (path : String) : String :=
  match env.readFile path with
  | none => ""
  | some data => env.sha256hex data

/-- Model of `_files_differ` (comparator.py). -/
def files_differ (env : HashEnv) (src_path dst_path : String)
    (src_stat dst_stat : FileStat) (use_hash : Bool) : Bool :=
  if src_stat.size_bytes != dst_stat.size_bytes then true
  else if src_stat.mtime_ns != dst_stat.mtime_ns then
    (if use_hash then compute_sha256 env src_path != compute_sha256 env dst_path
     else true)
  else false

/-- Model of `os.path.join(root, rel.replace("/", os.sep))` on a posix-style
system, where the separator replacement is the identity. -/
def pathJoin (root rel : String) : String := root ++ "/" ++ rel

/-- Index of the last occurrence of a character in a list, if any. -/
def rfindIdx (c : Char) : List Char → Option Nat
  | [] => none
  | x :: xs =>
    match rfindIdx c xs with
    | some i => some (i + 1)
    | none => if x == c then some 0 else none

/-- The index at which `os.path.splitext` splits off the extension, if any:
the last dot must come after the last slash, and the basename up to it must
not be all dots. -/
def extSplitIdx (p : String) : Option Nat :=
  match rfindIdx '.' p.toList with
  | none => none
  | some d =>
    let fileStart : Nat := match rfindIdx '/' p.toList with | none => 0 | some s => s + 1
    if fileStart ≤ d ∧ ((p.toList.drop fileStart).take (d - fileStart)).any (fun ch => ch != '.') then
      some d
    else none

/-- Model of `os.path.splitext` for posix paths. -/
def splitext (p : String) : String × String :=
  match extSplitIdx p with
  | none => (p, "")
  | some d => (String.mk (p.toList.take d), String.mk (p.toList.drop d))

/-- Model of `_conflict_dst_path` (comparator.py); the `datetime.now()`
timestamp is passed in as `stamp`. -/
def conflict_dst_path (stamp : String) (dst_path : String) : String :=
  let base := (splitext dst_path).1
  let ext := (splitext dst_path).2
  base ++ ".conflict_" ++ stamp ++ ext

/-- Model of `_stat_changed` (comparator.py). -/
def stat_changed (stat : FileStat) (known : Option FileState) : Bool :=
  match known with
  | none => true
  | some k => stat.size_bytes != k.size_bytes || stat.mtime_ns != k.mtime_ns

/-- The action chosen for one relative path, tagged by which plan list the
Python code appends to. -/
inductive PlanItem where
  | copyI (e : String × String × String × Nat)
  | deleteI (p : String)
  | conflictI (e : String × String × String × Nat)
  | skipI (e : String × String × String × Nat)
  deriving DecidableEq, Repr

/-- The branch of the `_plan_one_way` loop body (comparator.py) deciding the
action for one entry of the `from` snapshot. -/
def classify_one_way (env : HashEnv) (from_root to_root : String)
    (to_stats : List (String × FileStat)) (use_hash : Bool)
    (p : String × FileStat) : PlanItem :=
  let from_abs := pathJoin from_root p.1
  let to_abs := pathJoin to_root p.1
  match dictGet to_stats p.1 with
  | none => .copyI (from_abs, to_abs, p.1, p.2.size_bytes)
  | some to_stat =>
    if files_differ env from_abs to_abs p.2 to_stat use_hash then
      .copyI (from_abs, to_abs, p.1, p.2.size_bytes)
    else
      .skipI (from_abs, to_abs, p.1, p.2.size_bytes)

/-- Model of `_plan_one_way` (comparator.py): every `from` entry yields a
copy or skip entry in iteration order, and when `delete_extraneous` is set
every `to`-only relative path yields a delete entry. -/
def plan_one_way (env : HashEnv) (from_root to_root : String)
    (from_stats to_stats : List (String × FileStat))
    (use_hash delete_extraneous : Bool) : SyncPlan :=
  { to_copy := from_stats.filterMap fun p =>
      match classify_one_way env from_root to_root to_stats use_hash p with
      | .copyI e => some e
      | _ => none
    to_skip := from_stats.filterMap fun p =>
      match classify_one_way env from_root to_root to_stats use_hash p with
      | .skipI e => some e
      | _ => none
    conflicts := []
    to_delete :=
      if delete_extraneous then
        to_stats.filterMap fun q =>
          match dictGet from_stats q.1 with
          | none => some (pathJoin to_root q.1)
          | some _ => none
      else [] }

/-- The branch of the `_plan_bidirectional` loop body (comparator.py)
deciding the action for one relative path; `none` only when the path is in
neither snapshot. -/
def classify_bidi (env : HashEnv) (stamp : String) (src_root dst_root : String)
    (src_stats dst_stats : List (String × FileStat))
    (use_hash delete_extraneous : Bool)
    (known_src known_dst : List (String × FileState))
    (rel : String) : Option PlanItem :=
  let src_abs := pathJoin src_root rel
  let dst_abs := pathJoin dst_root rel
  match dictGet src_stats rel, dictGet dst_stats rel with
  | some src_stat, some dst_stat =>
    let src_changed := stat_changed src_stat (dictGet known_src rel)
    let dst_changed := stat_changed dst_stat (dictGet known_dst rel)
    if src_changed && dst_changed then
      some (.conflictI (src_abs, conflict_dst_path stamp dst_abs, rel, src_stat.size_bytes))
    else if src_changed then
      (if files_differ env src_abs dst_abs src_stat dst_stat use_hash then
        some (.copyI (src_abs, dst_abs, rel, src_stat.size_bytes))
      else
        some (.skipI (src_abs, dst_abs, rel, src_stat.size_bytes)))
    else if dst_changed then
      (if files_differ env dst_abs src_abs dst_stat src_stat use_hash then
        some (.copyI (dst_abs, src_abs, rel, dst_stat.size_bytes))
      else
        some (.skipI (dst_abs, src_abs, rel, dst_stat.size_bytes)))
    else
      some (.skipI (src_abs, dst_abs, rel, src_stat.size_bytes))
  | some src_stat, none => some (.copyI (src_abs, dst_abs, rel, src_stat.size_bytes))
  | none, some dst_stat =>
    if delete_extraneous then some (.deleteI dst_abs)
    else some (.copyI (dst_abs, src_abs, rel, dst_stat.size_bytes))
  | none, none => none

/-- The iteration domain `set(src_stats) | set(dst_stats)` of
`_plan_bidirectional`, as a duplicate-free list of relative paths. -/
def allPaths (src_stats dst_stats : List (String × FileStat)) : List String :=
  (src_stats.map Prod.fst ++ dst_stats.map Prod.fst).dedup

/-- Model of `_plan_bidirectional` (comparator.py). -/
def plan_bidirectional (env : HashEnv) (stamp : String) (src_root dst_root : String)
    (src_stats dst_stats : List (String × FileStat))
    (use_hash delete_extraneous : Bool)
    (known_src known_dst : List (String × FileState)) : SyncPlan :=
  let classify := classify_bidi env stamp src_root dst_root src_stats dst_stats
    use_hash delete_extraneous known_src known_dst
  { to_copy := (allPaths src_stats dst_stats).filterMap fun rel =>
      match classify rel with
      | some (.copyI e) => some e
      | _ => none
    to_delete := (allPaths src_stats dst_stats).filterMap fun rel =>
      match classify rel with
      | some (.deleteI p) => some p
      | _ => none
    conflicts := (allPaths src_stats dst_stats).filterMap fun rel =>
      match classify rel with
      | some (.conflictI e) => some e
      | _ => none
    to_skip := (allPaths src_stats dst_stats).filterMap fun rel =>
      match classify rel with
      | some (.skipI e) => some e
      | _ => none }

/-- Model of `compare_trees` (comparator.py). -/
def compare_trees (env : HashEnv) (stamp : String) (src_root dst_root : String)
    (src_stats dst_stats : List (String × FileStat))
    (direction : String) (use_hash delete_extraneous : Bool)
    (known_src_states known_dst_states : List (String × FileState)) : SyncPlan :=
  if direction = "source_to_dest" then
    plan_one_way env src_root dst_root src_stats dst_stats use_hash delete_extraneous
  else if direction = "dest_to_source" then
    plan_one_way env dst_root src_root dst_stats src_stats use_hash delete_extraneous
  else if direction = "bidirectional" then
    plan_bidirectional env stamp src_root dst_root src_stats dst_stats
      use_hash delete_extraneous known_src_states known_dst_states
  else
    {}

/-- Relative paths carried by the copy entries of a plan. -/
def copyRels (plan : SyncPlan) : List String := plan.to_copy.map (fun e => e.2.2.1)

/-- Relative paths carried by the conflict entries of a plan. -/
def conflictRels (plan : SyncPlan) : List String := plan.conflicts.map (fun e => e.2.2.1)

/-- Relative paths carried by the skip entries of a plan. -/
def skipRels (plan : SyncPlan) : List String := plan.to_skip.map (fun e => e.2.2.1)

/-- How many of the four plan lists classify the relative path `rel`;
delete entries hold absolute paths under `delete_root`. -/
def relCount (delete_root : String) (plan : SyncPlan) (rel : String) : Nat :=
  (if rel ∈ copyRels plan then 1 else 0) +
  (if pathJoin delete_root rel ∈ plan.to_delete then 1 else 0) +
  (if rel ∈ conflictRels plan then 1 else 0) +
  (if rel ∈ skipRels plan then 1 else 0)

/-! Transfer (src/core/file_ops.py) and the constants it uses
(src/utils/config.py). -/

/-- `COPY_RETRY_COUNT` from utils/config.py. -/
def COPY_RETRY_COUNT : Nat := 3

/-- `COPY_RETRY_DELAY` from utils/config.py, in seconds. -/
def COPY_RETRY_DELAY : Nat := 1

/-- What one attempt of the `atomic_copy` retry loop runs into: a clean run
(`ok`: the chunk loop, `shutil.copystat` and `os.replace` all succeed), an
`OSError` after `partialBytes` bytes were written to the temp file, or
`cancel_check` firing after `partialBytes` bytes. -/
inductive AttemptOutcome where
  | ok
  | ioError (partialBytes : Nat) (msg : String)
  | cancelledAt (partialBytes : Nat)
  deriving DecidableEq, Repr

/-- How `atomic_copy` returns to its caller. -/
inductive CopyResult where
  | success
  | cancelled
  | failed (msg : String)
  deriving DecidableEq, Repr

/-- The two paths `atomic_copy` may write: the final destination path `dst`
and the temp path `dst + ".synctmp"`; `none` means the path does not exist. -/
structure CopyFS where
  dst : Option (List Nat)
  tmp : Option (List Nat)
  deriving DecidableEq, Repr

/-- Outcome record of one `atomic_copy` call: the result, the final state of
the two paths, the delays slept between attempts, and the number of attempts
performed. -/
structure CopyRun where
  result : CopyResult
  fs : CopyFS
  sleeps : List Nat
  attempts : Nat
  deriving DecidableEq, Repr

/-- The retry loop of `atomic_copy` (file_ops.py), starting at attempt
number `attempt` with `fuel` further attempts allowed after this one.
On a clean attempt the temp file holds the full source content and
`os.replace` moves it onto `dst`; on `_CancelledError` or `OSError` the
partly-written temp file is removed, and an `OSError` on the last attempt is
re-raised while earlier ones sleep `COPY_RETRY_DELAY` and retry. -/
def atomic_copy_go (src_content : List Nat) (oracle : Nat → AttemptOutcome) :
    Nat → Nat → CopyFS → List Nat → CopyRun
  | fuel, attempt, fs, sleeps =>
    match oracle attempt with
    | .ok =>
      { result := .success
        fs := { dst := some src_content, tmp := none }
        sleeps := sleeps, attempts := attempt }
    | .cancelledAt k =>
      let fsPartial : CopyFS := { fs with tmp := some (src_content.take k) }
      { result := .cancelled
        fs := { fsPartial with tmp := none }
        sleeps := sleeps, attempts := attempt }
    | .ioError k msg =>
      let fsPartial : CopyFS := { fs with tmp := some (src_content.take k) }
      let fsCleaned : CopyFS := { fsPartial with tmp := none }
      match fuel with
      | 0 => { result := .failed msg, fs := fsCleaned, sleeps := sleeps, attempts := attempt }
      | fuel' + 1 =>
        atomic_copy_go src_content oracle fuel' (attempt + 1) fsCleaned
          (sleeps ++ [COPY_RETRY_DELAY])

/-- Model of `atomic_copy` (file_ops.py): `for attempt in range(1,
COPY_RETRY_COUNT + 1)`, so attempts 1, 2, 3. -/
def atomic_copy_run (src_content : List Nat) (oracle : Nat → AttemptOutcome)
    (fs0 : CopyFS) : CopyRun :=
  atomic_copy_go src_content oracle (COPY_RETRY_COUNT - 1) 1 fs0 []

/-! A small directory-tree model for `safe_delete` (file_ops.py). Paths are
lists of path segments. -/

/-- Files and directories currently existing under some root. -/
structure DirFS where
  files : List (List String)
  dirs : List (List String)
  deriving DecidableEq, Repr

/-- `os.path.dirname` on a segment-list path. -/
def parentDir (p : List String) : List String := p.dropLast

/-- A directory is empty when nothing lies strictly inside it. -/
def emptyDir (fs : DirFS) (d : List String) : Bool :=
  fs.files.all (fun f => !(d.isPrefixOf f && f != d)) &&
  fs.dirs.all (fun e => !(d.isPrefixOf e && e != d))

/-- Model of `os.rmdir`: succeeds only on an existing empty directory. -/
def rmdir (fs : DirFS) (d : List String) : Option DirFS :=
  if d ∈ fs.dirs ∧ emptyDir fs d then some { fs with dirs := fs.dirs.erase d }
  else none

/-- The ancestor-pruning `while` loop of `os.removedirs`, with the chain
length as structural fuel: keep removing directories up the chain while
`os.rmdir` succeeds, stopping at the first failure or at the top of the
path. -/
def pruneUpFuel : Nat → DirFS → List String → DirFS
  | 0, fs, _ => fs
  | _ + 1, fs, [] => fs
  | n + 1, fs, x :: xs =>
    match rmdir fs (x :: xs) with
    | none => fs
    | some fs' => pruneUpFuel n fs' (x :: xs).dropLast

/-- The ancestor-pruning loop of `os.removedirs`, starting from path `d`;
each step strips one trailing segment, so `d.length` steps always suffice. -/
def pruneUp (fs : DirFS) (d : List String) : DirFS :=
  pruneUpFuel d.length fs d

/-- Model of `os.removedirs(name)`: remove `name` itself (raising, i.e.
`none`, if that fails), then best-effort prune the ancestors. -/
def removedirs (fs : DirFS) (d : List String) : Option DirFS :=
  (rmdir fs d).map (fun fs' => pruneUp fs' (parentDir d))

/-- Model of `safe_delete` (file_ops.py): remove the file, then try
`os.removedirs` on its parent with the `OSError` swallowed; an `OSError`
from `os.remove` itself is logged and swallowed too, so nothing ever
propagates. -/
def safe_delete (fs : DirFS) (path : List String) : DirFS :=
  if path ∈ fs.files then
    let fs1 : DirFS := { fs with files := fs.files.erase path }
    match removedirs fs1 (parentDir path) with
    | some fs2 => fs2
    | none => fs1
  else fs

/-! SyncEngine plan execution (src/core/sync_engine.py). -/

/-- Model of the `FileActionEvent` emitted per processed plan item
(utils/events.py fields used by sync_engine.py). -/
structure FileActionEvent where
  rel_path : String
  action : String
  size_bytes : Nat
  error_msg : String := ""
  deriving DecidableEq, Repr

/-- Whether one `atomic_copy` call inside `_execute_plan` succeeds or raises
an ordinary (non-cancellation) exception with message `msg`. -/
inductive CopyOutcome where
  | ok
  | err (msg : String)
  deriving DecidableEq, Repr

/-- The `all_ops` list built at the top of `_execute_plan`: copy entries
tagged "copy" followed by conflict entries tagged "conflict". -/
def all_ops (plan : SyncPlan) : List (String × String × String × Nat × String) :=
  plan.to_copy.map (fun e => (e.1, e.2.1, e.2.2.1, e.2.2.2, "copy")) ++
  plan.conflicts.map (fun e => (e.1, e.2.1, e.2.2.1, e.2.2.2, "conflict"))

/-- The body of the copy/conflict loop of `_execute_plan` for one item:
  on success a history entry `(rel, action, size, "")` and a matching
  `FileActionEvent`; on an ordinary exception a history entry
  `(rel, "error", size, msg)` and an error event — and in both cases the
  loop moves on to the next item. -/
def exec_op : (String × String × String × Nat × String) → CopyOutcome →
    (String × String × Nat × String) × FileActionEvent
  | (_, _, rel, size, action), .ok =>
    ((rel, action, size, ""), { rel_path := rel, action := action, size_bytes := size })
  | (_, _, rel, size, _), .err msg =>
    ((rel, "error", size, msg),
      { rel_path := rel, action := "error", size_bytes := size, error_msg := msg })

/-- The whole copy/conflict loop of `_execute_plan`, run without
cancellation: each op is processed with its outcome and contributes one
history entry and one event. -/
def exec_copy_phase (ops : List (String × String × String × Nat × String))
    (outcomes : List CopyOutcome) :
    List ((String × String × Nat × String) × FileActionEvent) :=
  (ops.zip outcomes).map (fun q => exec_op q.1 q.2)

/-- The final status written by `run` (sync_engine.py) when `_execute_plan`
returns normally: `"cancelled"` if the cancel event was observed, else
`"completed"`. -/
def run_status (cancelled : Bool) : String :=
  if cancelled then "cancelled" else "completed"

/-- Model of `SyncEngine._update_file_states` (sync_engine.py): nothing
unless the job is bidirectional; otherwise, for every entry of
`plan.to_copy` (conflicts excluded), `os.stat` both the destination and the
source path and record a `FileState` row for each stat that succeeds
(`statFn` returns `(st_size, st_mtime_ns)` or `none` on `OSError`). -/
def update_file_states (direction : String) (source_path drive_serial : String)
    (statFn : String → Option (Nat × Int)) (plan : SyncPlan) : List FileState :=
  if direction ≠ "bidirectional" then []
  else
    plan.to_copy.flatMap fun e =>
      [(e.2.1, drive_serial), (e.1, "SOURCE")].filterMap fun q =>
        match statFn q.1 with
        | some st =>
          some { source_path := source_path, drive_serial := q.2,
                 rel_path := e.2.2.1, size_bytes := st.1, mtime_ns := st.2,
                 sha256 := none }
        | none => none

/-! Snapshot-level effect of executing plan items. -/

/-- Content-level file system, for conflict-safety statements. -/
def ContentFS : Type := String → Option (List Nat)

/-- Effect of one successful `atomic_copy src dst` on file contents. -/
def apply_copy (fs : ContentFS) (src dst : String) : ContentFS :=
  fun p => if p = dst then fs src else fs p

/-- The destination-side stat of one `from` entry after a one-way plan runs
to completion: a copied file carries the source's stat onto the destination
(`shutil.copystat` preserves size and mtime), a skipped file keeps the
destination's existing stat. -/
def execStat (env : HashEnv) (from_root to_root : String)
    (to_stats : List (String × FileStat)) (use_hash : Bool)
    (p : String × FileStat) : String × FileStat :=
  match classify_one_way env from_root to_root to_stats use_hash p with
  | .skipI _ => (p.1, ((dictGet to_stats p.1).getD p.2))
  | _ => (p.1, p.2)

/-- The destination snapshot after running a one-way plan to completion:
every copy succeeds with the source metadata preserved, every skip leaves
the destination entry as it was, and extraneous destination entries are
deleted exactly when `delete_extraneous` is set. -/
def exec_one_way (env : HashEnv) (from_root to_root : String)
    (from_stats to_stats : List (String × FileStat))
    (use_hash delete_extraneous : Bool) : List (String × FileStat) :=
  from_stats.map (execStat env from_root to_root to_stats use_hash) ++
  (if delete_extraneous then []
   else to_stats.filter (fun q => (dictGet from_stats q.1).isNone))

/-! Basic lemmas about the embedding. -/

theorem dictGet_eq_none {α : Type} {m : List (String × α)} {k : String} :
    dictGet m k = none ↔ k ∉ m.map Prod.fst := by
  simp only [dictGet, Option.map_eq_none', List.find?_eq_none, List.mem_map, beq_iff_eq]
  push_neg
  constructor
  · intro h p hp hpk
    exact h p hp hpk
  · intro h p hp hpk
    exact h p hp hpk

theorem dictGet_isSome_of_mem_keys {α : Type} {m : List (String × α)} {k : String}
    (h : k ∈ m.map Prod.fst) : ∃ v, dictGet m k = some v := by
  cases hv : dictGet m k with
  | none => exact absurd (dictGet_eq_none.mp hv) (by simpa using h)
  | some v => exact ⟨v, rfl⟩

theorem mem_of_dictGet_eq_some {α : Type} {m : List (String × α)} {k : String} {v : α}
    (h : dictGet m k = some v) : (k, v) ∈ m := by
  simp only [dictGet, Option.map_eq_some'] at h
  obtain ⟨p, hp, hv⟩ := h
  have hmem := List.mem_of_find?_eq_some hp
  have hkey : p.1 = k := by
    have hps := List.find?_some hp
    simpa using hps
  obtain ⟨a, b⟩ := p
  simp only at hkey hv
  rw [← hkey, ← hv]
  exact hmem

theorem dictGet_of_mem_nodup {α : Type} {m : List (String × α)} {k : String} {v : α}
    (hn : (m.map Prod.fst).Nodup) (h : (k, v) ∈ m) : dictGet m k = some v := by
  induction m with
  | nil => simp at h
  | cons p t ih =>
    simp only [List.map_cons, List.nodup_cons] at hn
    rcases List.mem_cons.mp h with h' | h'
    · simp [dictGet, List.find?, ← h']
    · have hne : p.1 ≠ k := by
        intro hk
        exact hn.1 (by simpa [hk] using List.mem_map_of_mem Prod.fst h')
      simp only [dictGet, List.find?]
      rw [show (p.1 == k) = false from beq_eq_false_iff_ne.mpr hne]
      exact ih hn.2 h'

theorem dictGet_unique_nodup {α : Type} {m : List (String × α)} {k : String} {v v' : α}
    (hn : (m.map Prod.fst).Nodup) (h : (k, v) ∈ m) (h' : (k, v') ∈ m) : v = v' := by
  have h1 := dictGet_of_mem_nodup hn h
  have h2 := dictGet_of_mem_nodup hn h'
  rw [h1] at h2
  exact Option.some_injective _ h2

theorem dictGet_append_left {α : Type} {l₁ l₂ : List (String × α)} {k : String} {v : α}
    (h : dictGet l₁ k = some v) : dictGet (l₁ ++ l₂) k = some v := by
  induction l₁ with
  | nil => simp [dictGet] at h
  | cons p t ih =>
    simp only [List.cons_append, dictGet, List.find?] at h ⊢
    cases hpk : (p.1 == k) with
    | true => simpa [hpk] using h
    | false =>
      simp only [hpk] at h ⊢
      exact ih h

theorem pathJoin_right_inj {root a b : String} (h : pathJoin root a = pathJoin root b) :
    a = b := by
  have h2 : (root ++ "/").data ++ a.data = (root ++ "/").data ++ b.data := by
    have hd := congrArg String.data h
    simpa [pathJoin, String.data_append, List.append_assoc] using hd
  have h3 := List.append_cancel_left h2
  cases a
  cases b
  exact congrArg String.mk h3

theorem splitext_data (p : String) :
    (splitext p).1.data ++ (splitext p).2.data = p.data := by
  unfold splitext
  cases h : extSplitIdx p with
  | none => simp
  | some d => simp [String.toList, List.take_append_drop]

theorem conflict_dst_path_ne (stamp p : String) : conflict_dst_path stamp p ≠ p := by
  intro h
  have h1 : (splitext p).1.data.length + (splitext p).2.data.length = p.data.length := by
    have hd := congrArg List.length (splitext_data p)
    simpa using hd
  have h2 : (conflict_dst_path stamp p).data.length = p.data.length := by rw [h]
  simp only [conflict_dst_path, String.data_append, List.length_append,
    List.length_cons, List.length_nil] at h2
  omega

theorem files_differ_self (env : HashEnv) (a b : String) (s : FileStat) (uh : Bool) :
    files_differ env a b s s uh = false := by
  simp [files_differ]

theorem classify_one_way_cases (env : HashEnv) (fr tr : String)
    (ts : List (String × FileStat)) (uh : Bool) (p : String × FileStat) :
    classify_one_way env fr tr ts uh p =
      .copyI (pathJoin fr p.1, pathJoin tr p.1, p.1, p.2.size_bytes) ∨
    classify_one_way env fr tr ts uh p =
      .skipI (pathJoin fr p.1, pathJoin tr p.1, p.1, p.2.size_bytes) := by
  unfold classify_one_way
  cases dictGet ts p.1 with
  | none => left; rfl
  | some t =>
    simp only
    split
    · left; rfl
    · right; rfl

theorem mem_copyRels_one_way {env : HashEnv} {fr tr : String}
    {fs ts : List (String × FileStat)} {uh dex : Bool} {rel : String} :
    rel ∈ copyRels (plan_one_way env fr tr fs ts uh dex) ↔
      ∃ s, (rel, s) ∈ fs ∧ classify_one_way env fr tr ts uh (rel, s) =
        .copyI (pathJoin fr rel, pathJoin tr rel, rel, s.size_bytes) := by
  simp only [copyRels, plan_one_way, List.mem_map, List.mem_filterMap]
  constructor
  · rintro ⟨e, ⟨p, hp, hpe⟩, hrel⟩
    rcases classify_one_way_cases env fr tr ts uh p with hc | hc
    · rw [hc] at hpe
      simp only [Option.some.injEq] at hpe
      subst hpe
      simp only at hrel
      subst hrel
      exact ⟨p.2, hp, hc⟩
    · rw [hc] at hpe
      exact absurd hpe (by simp)
  · rintro ⟨s, hmem, hcl⟩
    exact ⟨_, ⟨(rel, s), hmem, by rw [hcl]⟩, rfl⟩

theorem mem_skipRels_one_way {env : HashEnv} {fr tr : String}
    {fs ts : List (String × FileStat)} {uh dex : Bool} {rel : String} :
    rel ∈ skipRels (plan_one_way env fr tr fs ts uh dex) ↔
      ∃ s, (rel, s) ∈ fs ∧ classify_one_way env fr tr ts uh (rel, s) =
        .skipI (pathJoin fr rel, pathJoin tr rel, rel, s.size_bytes) := by
  simp only [skipRels, plan_one_way, List.mem_map, List.mem_filterMap]
  constructor
  · rintro ⟨e, ⟨p, hp, hpe⟩, hrel⟩
    rcases classify_one_way_cases env fr tr ts uh p with hc | hc
    · rw [hc] at hpe
      exact absurd hpe (by simp)
    · rw [hc] at hpe
      simp only [Option.some.injEq] at hpe
      subst hpe
      simp only at hrel
      subst hrel
      exact ⟨p.2, hp, hc⟩
  · rintro ⟨s, hmem, hcl⟩
    exact ⟨_, ⟨(rel, s), hmem, by rw [hcl]⟩, rfl⟩

theorem mem_delete_one_way {env : HashEnv} {fr tr : String}
    {fs ts : List (String × FileStat)} {uh dex : Bool} {rel : String} :
    pathJoin tr rel ∈ (plan_one_way env fr tr fs ts uh dex).to_delete ↔
      dex = true ∧ rel ∈ ts.map Prod.fst ∧ dictGet fs rel = none := by
  simp only [plan_one_way]
  cases dex with
  | false => simp
  | true =>
    simp only [if_true, List.mem_filterMap, true_and]
    constructor
    · rintro ⟨q, hq, hqe⟩
      cases hdg : dictGet fs q.1 with
      | some v =>
        rw [hdg] at hqe
        exact absurd hqe (by simp)
      | none =>
        rw [hdg] at hqe
        simp only [Option.some.injEq] at hqe
        have hq1 : q.1 = rel := pathJoin_right_inj hqe
        rw [hq1] at hdg
        exact ⟨by rw [← hq1]; exact List.mem_map_of_mem Prod.fst hq, hdg⟩
    · rintro ⟨hts, hnone⟩
      obtain ⟨q, hq, hq1⟩ := List.mem_map.mp hts
      refine ⟨q, hq, ?_⟩
      rw [hq1, hnone]

theorem conflicts_one_way (env : HashEnv) (fr tr : String)
    (fs ts : List (String × FileStat)) (uh dex : Bool) :
    (plan_one_way env fr tr fs ts uh dex).conflicts = [] := rfl

theorem relCount_one_way_from {env : HashEnv} {fr tr : String}
    {fs ts : List (String × FileStat)} {uh dex : Bool} {rel : String}
    (hn : (fs.map Prod.fst).Nodup) (h : rel ∈ fs.map Prod.fst) :
    relCount tr (plan_one_way env fr tr fs ts uh dex) rel = 1 := by
  obtain ⟨p, hp, hp1⟩ := List.mem_map.mp h
  have hs : (rel, p.2) ∈ fs := by
    rw [← hp1]
    exact hp
  have hdel : pathJoin tr rel ∉ (plan_one_way env fr tr fs ts uh dex).to_delete := by
    intro hmem
    obtain ⟨_, _, hnone⟩ := mem_delete_one_way.mp hmem
    rw [dictGet_of_mem_nodup hn hs] at hnone
    exact absurd hnone (by simp)
  have hconf : rel ∉ conflictRels (plan_one_way env fr tr fs ts uh dex) := by
    simp [conflictRels, conflicts_one_way]
  rcases classify_one_way_cases env fr tr ts uh (rel, p.2) with hc | hc
  · have hcopy : rel ∈ copyRels (plan_one_way env fr tr fs ts uh dex) :=
      mem_copyRels_one_way.mpr ⟨p.2, hs, hc⟩
    have hskip : rel ∉ skipRels (plan_one_way env fr tr fs ts uh dex) := by
      intro hmem
      obtain ⟨s', hs', hc'⟩ := mem_skipRels_one_way.mp hmem
      have hss : p.2 = s' := dictGet_unique_nodup hn hs hs'
      rw [← hss] at hc'
      rw [hc] at hc'
      exact absurd hc' (by simp)
    simp [relCount, hcopy, hskip, hdel, hconf]
  · have hskip : rel ∈ skipRels (plan_one_way env fr tr fs ts uh dex) :=
      mem_skipRels_one_way.mpr ⟨p.2, hs, hc⟩
    have hcopy : rel ∉ copyRels (plan_one_way env fr tr fs ts uh dex) := by
      intro hmem
      obtain ⟨s', hs', hc'⟩ := mem_copyRels_one_way.mp hmem
      have hss : p.2 = s' := dictGet_unique_nodup hn hs hs'
      rw [← hss] at hc'
      rw [hc] at hc'
      exact absurd hc' (by simp)
    simp [relCount, hcopy, hskip, hdel, hconf]

theorem relCount_one_way_other {env : HashEnv} {fr tr : String}
    {fs ts : List (String × FileStat)} {uh dex : Bool} {rel : String}
    (hfrom : rel ∉ fs.map Prod.fst) :
    relCount tr (plan_one_way env fr tr fs ts uh dex) rel =
      if dex ∧ rel ∈ ts.map Prod.fst then 1 else 0 := by
  have hcopy : rel ∉ copyRels (plan_one_way env fr tr fs ts uh dex) := by
    intro hmem
    obtain ⟨s, hs, _⟩ := mem_copyRels_one_way.mp hmem
    exact hfrom (List.mem_map_of_mem Prod.fst hs)
  have hskip : rel ∉ skipRels (plan_one_way env fr tr fs ts uh dex) := by
    intro hmem
    obtain ⟨s, hs, _⟩ := mem_skipRels_one_way.mp hmem
    exact hfrom (List.mem_map_of_mem Prod.fst hs)
  have hconf : rel ∉ conflictRels (plan_one_way env fr tr fs ts uh dex) := by
    simp [conflictRels, conflicts_one_way]
  have hdel : pathJoin tr rel ∈ (plan_one_way env fr tr fs ts uh dex).to_delete ↔
      dex = true ∧ rel ∈ ts.map Prod.fst := by
    rw [mem_delete_one_way]
    simp [dictGet_eq_none.mpr hfrom]
  by_cases hcase : dex = true ∧ rel ∈ ts.map Prod.fst
  · have hin := hdel.mpr hcase
    simp only [relCount, if_neg hcopy, if_neg hskip, if_neg hconf, if_pos hin]
    rw [if_pos hcase]
  · have hdel' : pathJoin tr rel ∉ (plan_one_way env fr tr fs ts uh dex).to_delete := by
      rw [hdel]
      exact hcase
    simp only [relCount, if_neg hcopy, if_neg hskip, if_neg hconf, if_neg hdel']
    rw [if_neg hcase]

/-! Shape of the bidirectional classification. -/

theorem classify_bidi_shape (env : HashEnv) (stamp sr dr : String)
    (ss ds : List (String × FileStat)) (uh dex : Bool)
    (ks kd : List (String × FileState)) (rel : String) :
    (classify_bidi env stamp sr dr ss ds uh dex ks kd rel = none ∧
      dictGet ss rel = none ∧ dictGet ds rel = none) ∨
    (∃ e : String × String × String × Nat, e.2.2.1 = rel ∧
      (classify_bidi env stamp sr dr ss ds uh dex ks kd rel = some (.copyI e) ∨
       classify_bidi env stamp sr dr ss ds uh dex ks kd rel = some (.conflictI e) ∨
       classify_bidi env stamp sr dr ss ds uh dex ks kd rel = some (.skipI e))) ∨
    classify_bidi env stamp sr dr ss ds uh dex ks kd rel =
      some (.deleteI (pathJoin dr rel)) := by
  cases h1 : dictGet ss rel with
  | none =>
    cases h2 : dictGet ds rel with
    | none => exact Or.inl ⟨by simp [classify_bidi, h1, h2], rfl, rfl⟩
    | some d =>
      cases hdex : dex with
      | true => exact Or.inr (Or.inr (by simp [classify_bidi, h1, h2, hdex]))
      | false =>
        exact Or.inr (Or.inl ⟨(pathJoin dr rel, pathJoin sr rel, rel, d.size_bytes), rfl,
          Or.inl (by simp [classify_bidi, h1, h2, hdex])⟩)
  | some s =>
    cases h2 : dictGet ds rel with
    | none =>
      exact Or.inr (Or.inl ⟨(pathJoin sr rel, pathJoin dr rel, rel, s.size_bytes), rfl,
        Or.inl (by simp [classify_bidi, h1, h2])⟩)
    | some d =>
      cases hcs : stat_changed s (dictGet ks rel) with
      | true =>
        cases hcd : stat_changed d (dictGet kd rel) with
        | true =>
          exact Or.inr (Or.inl ⟨(pathJoin sr rel,
            conflict_dst_path stamp (pathJoin dr rel), rel, s.size_bytes), rfl,
            Or.inr (Or.inl (by simp [classify_bidi, h1, h2, hcs, hcd]))⟩)
        | false =>
          cases hdf : files_differ env (pathJoin sr rel) (pathJoin dr rel) s d uh with
          | true =>
            exact Or.inr (Or.inl ⟨(pathJoin sr rel, pathJoin dr rel, rel, s.size_bytes),
              rfl, Or.inl (by simp [classify_bidi, h1, h2, hcs, hcd, hdf])⟩)
          | false =>
            exact Or.inr (Or.inl ⟨(pathJoin sr rel, pathJoin dr rel, rel, s.size_bytes),
              rfl, Or.inr (Or.inr (by simp [classify_bidi, h1, h2, hcs, hcd, hdf]))⟩)
      | false =>
        cases hcd : stat_changed d (dictGet kd rel) with
        | true =>
          cases hdf : files_differ env (pathJoin dr rel) (pathJoin sr rel) d s uh with
          | true =>
            exact Or.inr (Or.inl ⟨(pathJoin dr rel, pathJoin sr rel, rel, d.size_bytes),
              rfl, Or.inl (by simp [classify_bidi, h1, h2, hcs, hcd, hdf])⟩)
          | false =>
            exact Or.inr (Or.inl ⟨(pathJoin dr rel, pathJoin sr rel, rel, d.size_bytes),
              rfl, Or.inr (Or.inr (by simp [classify_bidi, h1, h2, hcs, hcd, hdf]))⟩)
        | false =>
          exact Or.inr (Or.inl ⟨(pathJoin sr rel, pathJoin dr rel, rel, s.size_bytes),
            rfl, Or.inr (Or.inr (by simp [classify_bidi, h1, h2, hcs, hcd]))⟩)

theorem classify_bidi_isSome (env : HashEnv) (stamp sr dr : String)
    (ss ds : List (String × FileStat)) (uh dex : Bool)
    (ks kd : List (String × FileState)) (rel : String)
    (hobs : rel ∈ allPaths ss ds) :
    classify_bidi env stamp sr dr ss ds uh dex ks kd rel ≠ none := by
  have hmem : rel ∈ ss.map Prod.fst ∨ rel ∈ ds.map Prod.fst := by
    have hdd := List.mem_dedup.mp hobs
    simpa using hdd
  intro hnone
  rcases classify_bidi_shape env stamp sr dr ss ds uh dex ks kd rel with
    ⟨_, hs1, hs2⟩ | ⟨e, _, hsh | hsh | hsh⟩ | hsh
  · rcases hmem with hm | hm
    · exact (dictGet_eq_none.mp hs1) hm
    · exact (dictGet_eq_none.mp hs2) hm
  all_goals rw [hnone] at hsh
  all_goals simp at hsh

theorem mem_allPaths {ss ds : List (String × FileStat)} {rel : String} :
    rel ∈ allPaths ss ds ↔ (rel ∈ ss.map Prod.fst ∨ rel ∈ ds.map Prod.fst) := by
  unfold allPaths
  rw [List.mem_dedup, List.mem_append]

theorem classify_bidi_copy_payload {env : HashEnv} {stamp sr dr : String}
    {ss ds : List (String × FileStat)} {uh dex : Bool}
    {ks kd : List (String × FileState)} {rel : String}
    {e : String × String × String × Nat}
    (h : classify_bidi env stamp sr dr ss ds uh dex ks kd rel = some (.copyI e)) :
    e.2.2.1 = rel := by
  rcases classify_bidi_shape env stamp sr dr ss ds uh dex ks kd rel with
    ⟨hn, _, _⟩ | ⟨e', he', hsh | hsh | hsh⟩ | hsh
  · rw [h] at hn
    exact absurd hn (by simp)
  · rw [h] at hsh
    simp only [Option.some.injEq, PlanItem.copyI.injEq] at hsh
    rw [hsh]
    exact he'
  all_goals rw [h] at hsh
  all_goals simp at hsh

theorem classify_bidi_conflict_payload {env : HashEnv} {stamp sr dr : String}
    {ss ds : List (String × FileStat)} {uh dex : Bool}
    {ks kd : List (String × FileState)} {rel : String}
    {e : String × String × String × Nat}
    (h : classify_bidi env stamp sr dr ss ds uh dex ks kd rel = some (.conflictI e)) :
    e.2.2.1 = rel := by
  rcases classify_bidi_shape env stamp sr dr ss ds uh dex ks kd rel with
    ⟨hn, _, _⟩ | ⟨e', he', hsh | hsh | hsh⟩ | hsh
  · rw [h] at hn
    exact absurd hn (by simp)
  case inr.inl.intro.intro.inr.inl =>
    rw [h] at hsh
    simp only [Option.some.injEq, PlanItem.conflictI.injEq] at hsh
    rw [hsh]
    exact he'
  all_goals rw [h] at hsh
  all_goals simp at hsh

theorem classify_bidi_skip_payload {env : HashEnv} {stamp sr dr : String}
    {ss ds : List (String × FileStat)} {uh dex : Bool}
    {ks kd : List (String × FileState)} {rel : String}
    {e : String × String × String × Nat}
    (h : classify_bidi env stamp sr dr ss ds uh dex ks kd rel = some (.skipI e)) :
    e.2.2.1 = rel := by
  rcases classify_bidi_shape env stamp sr dr ss ds uh dex ks kd rel with
    ⟨hn, _, _⟩ | ⟨e', he', hsh | hsh | hsh⟩ | hsh
  · rw [h] at hn
    exact absurd hn (by simp)
  case inr.inl.intro.intro.inr.inr =>
    rw [h] at hsh
    simp only [Option.some.injEq, PlanItem.skipI.injEq] at hsh
    rw [hsh]
    exact he'
  all_goals rw [h] at hsh
  all_goals simp at hsh

theorem classify_bidi_delete_payload {env : HashEnv} {stamp sr dr : String}
    {ss ds : List (String × FileStat)} {uh dex : Bool}
    {ks kd : List (String × FileState)} {rel : String} {q : String}
    (h : classify_bidi env stamp sr dr ss ds uh dex ks kd rel = some (.deleteI q)) :
    q = pathJoin dr rel := by
  rcases classify_bidi_shape env stamp sr dr ss ds uh dex ks kd rel with
    ⟨hn, _, _⟩ | ⟨e', he', hsh | hsh | hsh⟩ | hsh
  · rw [h] at hn
    exact absurd hn (by simp)
  case inr.inr =>
    rw [h] at hsh
    simp only [Option.some.injEq, PlanItem.deleteI.injEq] at hsh
    exact hsh
  all_goals rw [h] at hsh
  all_goals simp at hsh

theorem mem_copyRels_bidi {env : HashEnv} {stamp sr dr : String}
    {ss ds : List (String × FileStat)} {uh dex : Bool}
    {ks kd : List (String × FileState)} {rel : String} :
    rel ∈ copyRels (plan_bidirectional env stamp sr dr ss ds uh dex ks kd) ↔
      rel ∈ allPaths ss ds ∧
      ∃ e, classify_bidi env stamp sr dr ss ds uh dex ks kd rel = some (.copyI e) := by
  simp only [copyRels, plan_bidirectional, List.mem_map, List.mem_filterMap]
  constructor
  · rintro ⟨e, ⟨r', hr', hre⟩, hrel⟩
    have hcl : classify_bidi env stamp sr dr ss ds uh dex ks kd r' = some (.copyI e) := by
      cases hc : classify_bidi env stamp sr dr ss ds uh dex ks kd r' with
      | none =>
        rw [hc] at hre
        exact absurd hre (by simp)
      | some item =>
        cases item <;> rw [hc] at hre <;> simp only [Option.some.injEq] at hre <;>
          simp_all
    have hr'rel : r' = rel := by
      rw [← hrel]
      exact (classify_bidi_copy_payload hcl).symm
    subst hr'rel
    exact ⟨hr', e, hcl⟩
  · rintro ⟨hobs, e, hcl⟩
    exact ⟨e, ⟨rel, hobs, by rw [hcl]⟩, classify_bidi_copy_payload hcl⟩

theorem mem_conflictRels_bidi {env : HashEnv} {stamp sr dr : String}
    {ss ds : List (String × FileStat)} {uh dex : Bool}
    {ks kd : List (String × FileState)} {rel : String} :
    rel ∈ conflictRels (plan_bidirectional env stamp sr dr ss ds uh dex ks kd) ↔
      rel ∈ allPaths ss ds ∧
      ∃ e, classify_bidi env stamp sr dr ss ds uh dex ks kd rel = some (.conflictI e) := by
  simp only [conflictRels, plan_bidirectional, List.mem_map, List.mem_filterMap]
  constructor
  · rintro ⟨e, ⟨r', hr', hre⟩, hrel⟩
    have hcl : classify_bidi env stamp sr dr ss ds uh dex ks kd r' =
        some (.conflictI e) := by
      cases hc : classify_bidi env stamp sr dr ss ds uh dex ks kd r' with
      | none =>
        rw [hc] at hre
        exact absurd hre (by simp)
      | some item =>
        cases item <;> rw [hc] at hre <;> simp only [Option.some.injEq] at hre <;>
          simp_all
    have hr'rel : r' = rel := by
      rw [← hrel]
      exact (classify_bidi_conflict_payload hcl).symm
    subst hr'rel
    exact ⟨hr', e, hcl⟩
  · rintro ⟨hobs, e, hcl⟩
    exact ⟨e, ⟨rel, hobs, by rw [hcl]⟩, classify_bidi_conflict_payload hcl⟩

theorem mem_skipRels_bidi {env : HashEnv} {stamp sr dr : String}
    {ss ds : List (String × FileStat)} {uh dex : Bool}
    {ks kd : List (String × FileState)} {rel : String} :
    rel ∈ skipRels (plan_bidirectional env stamp sr dr ss ds uh dex ks kd) ↔
      rel ∈ allPaths ss ds ∧
      ∃ e, classify_bidi env stamp sr dr ss ds uh dex ks kd rel = some (.skipI e) := by
  simp only [skipRels, plan_bidirectional, List.mem_map, List.mem_filterMap]
  constructor
  · rintro ⟨e, ⟨r', hr', hre⟩, hrel⟩
    have hcl : classify_bidi env stamp sr dr ss ds uh dex ks kd r' = some (.skipI e) := by
      cases hc : classify_bidi env stamp sr dr ss ds uh dex ks kd r' with
      | none =>
        rw [hc] at hre
        exact absurd hre (by simp)
      | some item =>
        cases item <;> rw [hc] at hre <;> simp only [Option.some.injEq] at hre <;>
          simp_all
    have hr'rel : r' = rel := by
      rw [← hrel]
      exact (classify_bidi_skip_payload hcl).symm
    subst hr'rel
    exact ⟨hr', e, hcl⟩
  · rintro ⟨hobs, e, hcl⟩
    exact ⟨e, ⟨rel, hobs, by rw [hcl]⟩, classify_bidi_skip_payload hcl⟩

theorem mem_delete_bidi {env : HashEnv} {stamp sr dr : String}
    {ss ds : List (String × FileStat)} {uh dex : Bool}
    {ks kd : List (String × FileState)} {rel : String} :
    pathJoin dr rel ∈ (plan_bidirectional env stamp sr dr ss ds uh dex ks kd).to_delete ↔
      rel ∈ allPaths ss ds ∧
      classify_bidi env stamp sr dr ss ds uh dex ks kd rel =
        some (.deleteI (pathJoin dr rel)) := by
  simp only [plan_bidirectional, List.mem_filterMap]
  constructor
  · rintro ⟨r', hr', hre⟩
    have hcl : classify_bidi env stamp sr dr ss ds uh dex ks kd r' =
        some (.deleteI (pathJoin dr rel)) := by
      cases hc : classify_bidi env stamp sr dr ss ds uh dex ks kd r' with
      | none =>
        rw [hc] at hre
        exact absurd hre (by simp)
      | some item =>
        cases item <;> rw [hc] at hre <;> simp only [Option.some.injEq] at hre <;>
          simp_all
    have hr'rel : r' = rel :=
      pathJoin_right_inj (classify_bidi_delete_payload hcl).symm
    subst hr'rel
    exact ⟨hr', hcl⟩
  · rintro ⟨hobs, hcl⟩
    exact ⟨rel, hobs, by rw [hcl]⟩

theorem relCount_bidi {env : HashEnv} {stamp sr dr : String}
    {ss ds : List (String × FileStat)} {uh dex : Bool}
    {ks kd : List (String × FileState)} {rel : String}
    (hobs : rel ∈ allPaths ss ds) :
    relCount dr (plan_bidirectional env stamp sr dr ss ds uh dex ks kd) rel = 1 := by
  rcases classify_bidi_shape env stamp sr dr ss ds uh dex ks kd rel with
    ⟨hn, _, _⟩ | ⟨e, herel, hsh | hsh | hsh⟩ | hsh
  · exact absurd hn (classify_bidi_isSome env stamp sr dr ss ds uh dex ks kd rel hobs)
  · have hc : rel ∈ copyRels (plan_bidirectional env stamp sr dr ss ds uh dex ks kd) :=
      mem_copyRels_bidi.mpr ⟨hobs, e, hsh⟩
    have hnc : rel ∉ conflictRels (plan_bidirectional env stamp sr dr ss ds uh dex ks kd) := by
      intro hm
      obtain ⟨_, e', hcl⟩ := mem_conflictRels_bidi.mp hm
      rw [hsh] at hcl
      exact absurd hcl (by simp)
    have hnk : rel ∉ skipRels (plan_bidirectional env stamp sr dr ss ds uh dex ks kd) := by
      intro hm
      obtain ⟨_, e', hcl⟩ := mem_skipRels_bidi.mp hm
      rw [hsh] at hcl
      exact absurd hcl (by simp)
    have hnd : pathJoin dr rel ∉
        (plan_bidirectional env stamp sr dr ss ds uh dex ks kd).to_delete := by
      intro hm
      obtain ⟨_, hcl⟩ := mem_delete_bidi.mp hm
      rw [hsh] at hcl
      exact absurd hcl (by simp)
    simp [relCount, hc, hnc, hnk, hnd]
  · have hc : rel ∈ conflictRels (plan_bidirectional env stamp sr dr ss ds uh dex ks kd) :=
      mem_conflictRels_bidi.mpr ⟨hobs, e, hsh⟩
    have hnc : rel ∉ copyRels (plan_bidirectional env stamp sr dr ss ds uh dex ks kd) := by
      intro hm
      obtain ⟨_, e', hcl⟩ := mem_copyRels_bidi.mp hm
      rw [hsh] at hcl
      exact absurd hcl (by simp)
    have hnk : rel ∉ skipRels (plan_bidirectional env stamp sr dr ss ds uh dex ks kd) := by
      intro hm
      obtain ⟨_, e', hcl⟩ := mem_skipRels_bidi.mp hm
      rw [hsh] at hcl
      exact absurd hcl (by simp)
    have hnd : pathJoin dr rel ∉
        (plan_bidirectional env stamp sr dr ss ds uh dex ks kd).to_delete := by
      intro hm
      obtain ⟨_, hcl⟩ := mem_delete_bidi.mp hm
      rw [hsh] at hcl
      exact absurd hcl (by simp)
    simp [relCount, hc, hnc, hnk, hnd]
  · have hc : rel ∈ skipRels (plan_bidirectional env stamp sr dr ss ds uh dex ks kd) :=
      mem_skipRels_bidi.mpr ⟨hobs, e, hsh⟩
    have hnc : rel ∉ copyRels (plan_bidirectional env stamp sr dr ss ds uh dex ks kd) := by
      intro hm
      obtain ⟨_, e', hcl⟩ := mem_copyRels_bidi.mp hm
      rw [hsh] at hcl
      exact absurd hcl (by simp)
    have hnk : rel ∉ conflictRels (plan_bidirectional env stamp sr dr ss ds uh dex ks kd) := by
      intro hm
      obtain ⟨_, e', hcl⟩ := mem_conflictRels_bidi.mp hm
      rw [hsh] at hcl
      exact absurd hcl (by simp)
    have hnd : pathJoin dr rel ∉
        (plan_bidirectional env stamp sr dr ss ds uh dex ks kd).to_delete := by
      intro hm
      obtain ⟨_, hcl⟩ := mem_delete_bidi.mp hm
      rw [hsh] at hcl
      exact absurd hcl (by simp)
    simp [relCount, hc, hnc, hnk, hnd]
  · have hc : pathJoin dr rel ∈
        (plan_bidirectional env stamp sr dr ss ds uh dex ks kd).to_delete :=
      mem_delete_bidi.mpr ⟨hobs, hsh⟩
    have hnc : rel ∉ copyRels (plan_bidirectional env stamp sr dr ss ds uh dex ks kd) := by
      intro hm
      obtain ⟨_, e', hcl⟩ := mem_copyRels_bidi.mp hm
      rw [hsh] at hcl
      exact absurd hcl (by simp)
    have hnk : rel ∉ conflictRels (plan_bidirectional env stamp sr dr ss ds uh dex ks kd) := by
      intro hm
      obtain ⟨_, e', hcl⟩ := mem_conflictRels_bidi.mp hm
      rw [hsh] at hcl
      exact absurd hcl (by simp)
    have hns : rel ∉ skipRels (plan_bidirectional env stamp sr dr ss ds uh dex ks kd) := by
      intro hm
      obtain ⟨_, e', hcl⟩ := mem_skipRels_bidi.mp hm
      rw [hsh] at hcl
      exact absurd hcl (by simp)
    simp [relCount, hc, hnc, hnk, hns]

theorem execStat_fst (env : HashEnv) (fr tr : String) (ts : List (String × FileStat))
    (uh : Bool) (p : String × FileStat) :
    (execStat env fr tr ts uh p).1 = p.1 := by
  unfold execStat
  cases classify_one_way env fr tr ts uh p <;> rfl

theorem dictGet_exec_one_way {env : HashEnv} {fr tr : String}
    {fs ts : List (String × FileStat)} {uh dex : Bool} {rel : String} {s : FileStat}
    (hn : (fs.map Prod.fst).Nodup) (hmem : (rel, s) ∈ fs) :
    dictGet (exec_one_way env fr tr fs ts uh dex) rel =
      some (execStat env fr tr ts uh (rel, s)).2 := by
  unfold exec_one_way
  apply dictGet_append_left
  apply dictGet_of_mem_nodup
  · rw [List.map_map]
    have hcomp : (Prod.fst ∘ execStat env fr tr ts uh) = Prod.fst := by
      funext q
      exact execStat_fst env fr tr ts uh q
    rw [hcomp]
    exact hn
  · have hmm := List.mem_map_of_mem (execStat env fr tr ts uh) hmem
    have heta : (rel, (execStat env fr tr ts uh (rel, s)).2) =
        execStat env fr tr ts uh (rel, s) :=
      Prod.ext_iff.mpr ⟨(execStat_fst env fr tr ts uh (rel, s)).symm, rfl⟩
    rw [heta]
    exact hmm

/-! Claim theorems. -/

/-- Claim C10: calling `compare_trees` with a direction string other than
`source_to_dest`, `dest_to_source`, or `bidirectional` raises no error and
returns a `SyncPlan` with all four lists empty. -/
theorem C10_unknown_direction_empty_plan (env : HashEnv) (stamp src_root dst_root : String)
    (src_stats dst_stats : List (String × FileStat)) (direction : String)
    (use_hash delete_extraneous : Bool)
    (known_src known_dst : List (String × FileState))
    (h1 : direction ≠ "source_to_dest") (h2 : direction ≠ "dest_to_source")
    (h3 : direction ≠ "bidirectional") :
    compare_trees env stamp src_root dst_root src_stats dst_stats direction
      use_hash delete_extraneous known_src known_dst =
      { to_copy := [], to_delete := [], conflicts := [], to_skip := [] } := by
  simp [compare_trees, h1, h2, h3]

/-- Witness for C10 at the concrete direction string "push". -/
theorem C10_unknown_direction_empty_plan_witness :
    compare_trees ⟨fun _ => none, fun _ => ""⟩ "TS" "S" "D"
      [("a", ⟨"a", 1, 1, none⟩)] [] "push" true true [] [] =
      { to_copy := [], to_delete := [], conflicts := [], to_skip := [] } :=
  C10_unknown_direction_empty_plan _ _ _ _ _ _ _ _ _ _ _
    (by decide) (by decide) (by decide)

/-- Claim C9: when hashing is enabled, equal sizes, different mtimes, and
reading either file raises an `OSError`, that file's digest is the empty
string; two files that both fail to read get equal empty digests, so
`_files_differ` reports them equivalent and `_plan_one_way` classifies the
path as a skip, not a copy. -/
theorem C9_oserror_hash_empty_digest_skip (env : HashEnv) (from_root to_root rel : String)
    (to_stats : List (String × FileStat)) (s d : FileStat)
    (hlook : dictGet to_stats rel = some d)
    (hs : env.readFile (pathJoin from_root rel) = none)
    (hd : env.readFile (pathJoin to_root rel) = none)
    (hsize : s.size_bytes = d.size_bytes)
    (hmtime : s.mtime_ns ≠ d.mtime_ns) :
    compute_sha256 env (pathJoin from_root rel) = "" ∧
    compute_sha256 env (pathJoin to_root rel) = "" ∧
    files_differ env (pathJoin from_root rel) (pathJoin to_root rel) s d true = false ∧
    classify_one_way env from_root to_root to_stats true (rel, s) =
      .skipI (pathJoin from_root rel, pathJoin to_root rel, rel, s.size_bytes) := by
  have hc1 : compute_sha256 env (pathJoin from_root rel) = "" := by
    simp [compute_sha256, hs]
  have hc2 : compute_sha256 env (pathJoin to_root rel) = "" := by
    simp [compute_sha256, hd]
  have hdiff : files_differ env (pathJoin from_root rel) (pathJoin to_root rel) s d true
      = false := by
    simp [files_differ, hsize, hmtime, hc1, hc2]
  refine ⟨hc1, hc2, hdiff, ?_⟩
  simp [classify_one_way, hlook, hdiff]

/-- Witness for C9 at a concrete environment where every read fails. -/
theorem C9_oserror_hash_empty_digest_skip_witness :
    files_differ ⟨fun _ => none, fun _ => "h"⟩ (pathJoin "S" "a") (pathJoin "D" "a")
      ⟨"a", 2, 5, none⟩ ⟨"a", 2, 7, none⟩ true = false ∧
    classify_one_way ⟨fun _ => none, fun _ => "h"⟩ "S" "D" [("a", ⟨"a", 2, 7, none⟩)] true
      ("a", ⟨"a", 2, 5, none⟩) =
      .skipI (pathJoin "S" "a", pathJoin "D" "a", "a", 2) := by
  have h := C9_oserror_hash_empty_digest_skip ⟨fun _ => none, fun _ => "h"⟩ "S" "D" "a"
    [("a", ⟨"a", 2, 7, none⟩)] ⟨"a", 2, 5, none⟩ ⟨"a", 2, 7, none⟩
    (by rfl) (by rfl) (by rfl) (by rfl) (by decide)
  exact ⟨h.2.2.1, h.2.2.2⟩

/-- Claim C3: the equivalence test behaves as specified: different sizes
always differ; equal size and mtime is always equivalent and classified
skip; equal size, different mtime, hashing disabled always differs and is
classified copy; equal size, different mtime, hashing enabled is equivalent
iff the two digests are equal. -/
theorem C3_equivalence_test (env : HashEnv) (from_root to_root rel : String)
    (to_stats : List (String × FileStat)) (s d : FileStat) (use_hash : Bool)
    (hlook : dictGet to_stats rel = some d) :
    (s.size_bytes ≠ d.size_bytes →
      files_differ env (pathJoin from_root rel) (pathJoin to_root rel) s d use_hash = true) ∧
    (s.size_bytes = d.size_bytes → s.mtime_ns = d.mtime_ns →
      files_differ env (pathJoin from_root rel) (pathJoin to_root rel) s d use_hash = false ∧
      classify_one_way env from_root to_root to_stats use_hash (rel, s) =
        .skipI (pathJoin from_root rel, pathJoin to_root rel, rel, s.size_bytes)) ∧
    (s.size_bytes = d.size_bytes → s.mtime_ns ≠ d.mtime_ns →
      files_differ env (pathJoin from_root rel) (pathJoin to_root rel) s d false = true ∧
      classify_one_way env from_root to_root to_stats false (rel, s) =
        .copyI (pathJoin from_root rel, pathJoin to_root rel, rel, s.size_bytes)) ∧
    (s.size_bytes = d.size_bytes → s.mtime_ns ≠ d.mtime_ns →
      (files_differ env (pathJoin from_root rel) (pathJoin to_root rel) s d true = false ↔
        compute_sha256 env (pathJoin from_root rel) =
          compute_sha256 env (pathJoin to_root rel))) := by
  refine ⟨?_, ?_, ?_, ?_⟩
  · intro hsz
    simp [files_differ, hsz]
  · intro hsz hmt
    have hdiff : files_differ env (pathJoin from_root rel) (pathJoin to_root rel) s d
        use_hash = false := by simp [files_differ, hsz, hmt]
    exact ⟨hdiff, by simp [classify_one_way, hlook, hdiff]⟩
  · intro hsz hmt
    have hdiff : files_differ env (pathJoin from_root rel) (pathJoin to_root rel) s d
        false = true := by simp [files_differ, hsz, hmt]
    exact ⟨hdiff, by simp [classify_one_way, hlook, hdiff]⟩
  · intro hsz hmt
    simp [files_differ, hsz, hmt]

/-- Witness for C3 at concrete stats of equal size and mtime. -/
theorem C3_equivalence_test_witness :
    files_differ ⟨fun _ => none, fun _ => ""⟩ (pathJoin "S" "a") (pathJoin "D" "a")
      ⟨"a", 2, 5, none⟩ ⟨"a", 2, 5, none⟩ true = false ∧
    classify_one_way ⟨fun _ => none, fun _ => ""⟩ "S" "D" [("a", ⟨"a", 2, 5, none⟩)] true
      ("a", ⟨"a", 2, 5, none⟩) =
      .skipI (pathJoin "S" "a", pathJoin "D" "a", "a", 2) :=
  (C3_equivalence_test ⟨fun _ => none, fun _ => ""⟩ "S" "D" "a"
    [("a", ⟨"a", 2, 5, none⟩)] ⟨"a", 2, 5, none⟩ ⟨"a", 2, 5, none⟩ true
    (by rfl)).2.1 rfl rfl

/-- Claim C4: if `atomic_copy` fails with an I/O error after writing partial
bytes to the temp file, the destination's final path is unchanged, the temp
file is removed, the operation was retried the full `COPY_RETRY_COUNT`
attempts with `COPY_RETRY_DELAY` slept between attempts, and the failure is
raised only after exhausting retries; the final path is only ever written by
the atomic rename of a fully written temp file. -/
theorem C4_atomic_copy_failure_leaves_dst (src_content : List Nat)
    (oracle : Nat → AttemptOutcome) (fs0 : CopyFS) :
    ((atomic_copy_run src_content oracle fs0).fs.dst = fs0.dst ∨
      (atomic_copy_run src_content oracle fs0).fs.dst = some src_content) ∧
    (∀ msg, (atomic_copy_run src_content oracle fs0).result = .failed msg →
      (atomic_copy_run src_content oracle fs0).fs.dst = fs0.dst ∧
      (atomic_copy_run src_content oracle fs0).fs.tmp = none ∧
      (atomic_copy_run src_content oracle fs0).attempts = COPY_RETRY_COUNT ∧
      (atomic_copy_run src_content oracle fs0).sleeps =
        List.replicate (COPY_RETRY_COUNT - 1) COPY_RETRY_DELAY) ∧
    ((atomic_copy_run src_content oracle fs0).result = .success →
      (atomic_copy_run src_content oracle fs0).fs.dst = some src_content ∧
      (atomic_copy_run src_content oracle fs0).fs.tmp = none) := by
  cases h1 : oracle 1 <;> cases h2 : oracle 2 <;> cases h3 : oracle 3 <;>
    simp [atomic_copy_run, atomic_copy_go, h1, h2, h3, COPY_RETRY_COUNT,
      COPY_RETRY_DELAY, List.replicate]

/-- Witness for C4 at a run whose three attempts all hit an I/O error. -/
theorem C4_atomic_copy_failure_leaves_dst_witness :
    (atomic_copy_run [1, 2] (fun _ => .ioError 1 "boom") ⟨some [9], none⟩).fs.dst
      = some [9] ∧
    (atomic_copy_run [1, 2] (fun _ => .ioError 1 "boom") ⟨some [9], none⟩).attempts = 3 := by
  have h := C4_atomic_copy_failure_leaves_dst [1, 2] (fun _ => .ioError 1 "boom")
    ⟨some [9], none⟩
  have h2 := h.2.1 "boom" (by rfl)
  exact ⟨h2.1, h2.2.2.1⟩

/-- Claim C7 (code bug): deleting the only file under the configured
destination root `dst` removes the file, and the ancestor pruning of
`os.removedirs` then removes the now-empty root directory `dst` itself —
although both the spec and the code's own comment say the root is never
removed. -/
theorem C7_safe_delete_removes_configured_root :
    safe_delete { files := [["dst", "a.txt"]], dirs := [["dst"]] } ["dst", "a.txt"] =
      { files := [], dirs := [] } := by decide

/-- Claim C6: a non-cancellation failure of a single file's copy is recorded
per-file (a history entry with the error text and an error FileActionEvent)
and does not abort the job: the copy/conflict loop still produces one
history entry and one event per plan item, and with no cancellation observed
the run is finalized with status "completed". -/
theorem C6_per_file_failure_does_not_abort (plan : SyncPlan)
    (outcomes : List CopyOutcome)
    (hlen : outcomes.length = (all_ops plan).length)
    (src_abs dst_abs rel : String) (size : Nat) (action msg : String)
    (hmem : ((src_abs, dst_abs, rel, size, action), CopyOutcome.err msg)
      ∈ (all_ops plan).zip outcomes) :
    (exec_copy_phase (all_ops plan) outcomes).length = (all_ops plan).length ∧
    (rel, "error", size, msg) ∈ (exec_copy_phase (all_ops plan) outcomes).map Prod.fst ∧
    ({ rel_path := rel, action := "error", size_bytes := size, error_msg := msg }
        : FileActionEvent)
      ∈ (exec_copy_phase (all_ops plan) outcomes).map Prod.snd ∧
    run_status false = "completed" := by
  refine ⟨?_, ?_, ?_, rfl⟩
  · simp [exec_copy_phase, hlen]
  · exact List.mem_map.mpr
      ⟨exec_op (src_abs, dst_abs, rel, size, action) (.err msg),
        List.mem_map.mpr ⟨_, hmem, rfl⟩, rfl⟩
  · exact List.mem_map.mpr
      ⟨exec_op (src_abs, dst_abs, rel, size, action) (.err msg),
        List.mem_map.mpr ⟨_, hmem, rfl⟩, rfl⟩

/-- Witness for C6: a one-item plan whose only copy fails. -/
theorem C6_per_file_failure_does_not_abort_witness :
    ("a", "error", 1, "disk full") ∈
      (exec_copy_phase (all_ops ⟨[("s/a", "d/a", "a", 1)], [], [], []⟩)
        [.err "disk full"]).map Prod.fst ∧
    run_status false = "completed" := by
  have h := C6_per_file_failure_does_not_abort ⟨[("s/a", "d/a", "a", 1)], [], [], []⟩
    [.err "disk full"] (by rfl) "s/a" "d/a" "a" 1 "copy" "disk full" (by decide)
  exact ⟨h.2.1, h.2.2.2⟩

/-- Claim C8 counterexample: a bidirectional run whose only copy fails (its
history entry is the error entry) still upserts FileState rows for that
file, because `_update_file_states` walks `plan.to_copy` without consulting
per-file outcomes — here both paths still stat successfully. -/
theorem C8_counterexample_failed_copy_still_recorded :
    (exec_copy_phase (all_ops ⟨[("s/a", "d/a", "a", 1)], [], [], []⟩)
        [.err "disk full"]).map Prod.fst = [("a", "error", 1, "disk full")] ∧
    update_file_states "bidirectional" "SRC" "SER" (fun _ => some (1, 2))
        ⟨[("s/a", "d/a", "a", 1)], [], [], []⟩ =
      [⟨"SRC", "SER", "a", 1, 2, none⟩, ⟨"SRC", "SOURCE", "a", 1, 2, none⟩] := by
  constructor <;> rfl

/-- Claim C8 (amended): FileState rows are upserted only for bidirectional
jobs, and for a bidirectional job a row is recorded exactly for each
`to_copy` plan entry and each of its two sides (destination keyed by the
drive serial, source keyed by "SOURCE") whose `os.stat` succeeds —
regardless of whether the copy itself succeeded, and with conflict entries
contributing no rows. -/
theorem C8_amended_file_states (direction source_path drive_serial : String)
    (statFn : String → Option (Nat × Int)) (plan : SyncPlan) :
    (direction ≠ "bidirectional" →
      update_file_states direction source_path drive_serial statFn plan = []) ∧
    (∀ r : FileState,
      r ∈ update_file_states "bidirectional" source_path drive_serial statFn plan ↔
      ∃ e ∈ plan.to_copy,
        r.source_path = source_path ∧ r.rel_path = e.2.2.1 ∧ r.sha256 = none ∧
        ((r.drive_serial = drive_serial ∧ statFn e.2.1 = some (r.size_bytes, r.mtime_ns)) ∨
         (r.drive_serial = "SOURCE" ∧ statFn e.1 = some (r.size_bytes, r.mtime_ns)))) := by
  have hif : update_file_states "bidirectional" source_path drive_serial statFn plan =
      plan.to_copy.flatMap fun e =>
        [(e.2.1, drive_serial), (e.1, "SOURCE")].filterMap fun q =>
          match statFn q.1 with
          | some st =>
            some { source_path := source_path, drive_serial := q.2,
                   rel_path := e.2.2.1, size_bytes := st.1, mtime_ns := st.2,
                   sha256 := none }
          | none => none := by
    unfold update_file_states
    rw [if_neg (fun hc => hc rfl)]
  constructor
  · intro hdir
    simp [update_file_states, hdir]
  · intro r
    rw [hif]
    simp only [List.mem_flatMap, List.mem_filterMap, List.mem_cons,
      List.not_mem_nil, or_false]
    constructor
    · rintro ⟨e, he, q, hq, hr⟩
      cases hst : statFn q.1 with
      | none =>
        rw [hst] at hr
        exact absurd hr (by simp)
      | some st =>
        rw [hst] at hr
        simp only [Option.some.injEq] at hr
        subst hr
        rcases hq with hq | hq
        · subst hq
          exact ⟨e, he, rfl, rfl, rfl, Or.inl ⟨rfl, by simp [hst]⟩⟩
        · subst hq
          exact ⟨e, he, rfl, rfl, rfl, Or.inr ⟨rfl, by simp [hst]⟩⟩
    · rintro ⟨e, he, hsp, hrel, hsha, hside⟩
      rcases hside with ⟨hser, hst⟩ | ⟨hser, hst⟩
      · refine ⟨e, he, (e.2.1, drive_serial), Or.inl rfl, ?_⟩
        rw [hst]
        cases r
        simp_all
      · refine ⟨e, he, (e.1, "SOURCE"), Or.inr rfl, ?_⟩
        rw [hst]
        cases r
        simp_all

/-- Witness for C8 (amended): a push job records nothing, a bidirectional
job records the destination-side row of its copy entry. -/
theorem C8_amended_file_states_witness :
    update_file_states "source_to_dest" "SRC" "SER" (fun _ => some (1, 2))
      ⟨[("s/a", "d/a", "a", 1)], [], [], []⟩ = [] ∧
    (⟨"SRC", "SER", "a", 1, 2, none⟩ : FileState) ∈
      update_file_states "bidirectional" "SRC" "SER" (fun _ => some (1, 2))
        ⟨[("s/a", "d/a", "a", 1)], [], [], []⟩ := by
  refine ⟨(C8_amended_file_states "source_to_dest" "SRC" "SER" (fun _ => some (1, 2))
    ⟨[("s/a", "d/a", "a", 1)], [], [], []⟩).1 (by decide), ?_⟩
  exact ((C8_amended_file_states "bidirectional" "SRC" "SER" (fun _ => some (1, 2))
    ⟨[("s/a", "d/a", "a", 1)], [], [], []⟩).2 ⟨"SRC", "SER", "a", 1, 2, none⟩).mpr
    ⟨("s/a", "d/a", "a", 1), by decide, rfl, rfl, rfl, Or.inl ⟨rfl, rfl⟩⟩

/-- Claim C2 counterexample: at a concrete bidirectional conflict (path "a"
present on both sides, both sides changed since the empty known state,
source content [1], destination content [2]), executing the planned conflict
action leaves the SOURCE content at the conflict-renamed path — not the
pre-run destination content as the claim states — and the original
destination path still holds the destination content, not the source's. -/
theorem C2_counterexample_conflict_direction :
    (plan_bidirectional ⟨fun _ => none, fun _ => ""⟩ "20260224_143000" "S" "D"
        [("a", ⟨"a", 2, 5, none⟩)] [("a", ⟨"a", 2, 7, none⟩)] false false [] []).conflicts =
      [("S/a", conflict_dst_path "20260224_143000" "D/a", "a", 2)] ∧
    apply_copy (fun p => if p = "S/a" then some [1] else if p = "D/a" then some [2] else none)
        "S/a" (conflict_dst_path "20260224_143000" "D/a")
        (conflict_dst_path "20260224_143000" "D/a") = some [1] ∧
    (fun p => if p = "S/a" then some [1] else if p = "D/a" then some [2] else none :
        ContentFS) "D/a" = some [2] ∧
    apply_copy (fun p => if p = "S/a" then some [1] else if p = "D/a" then some [2] else none)
        "S/a" (conflict_dst_path "20260224_143000" "D/a") "D/a" = some [2] ∧
    (some [1] : Option (List Nat)) ≠ some [2] := by
  refine ⟨by decide, by decide, by decide, by decide, by decide⟩

/-- Claim C2 (amended): for every path present on both sides where both
sides changed since the last known sync, the bidirectional plan holds a
conflict entry copying the source file to the conflict-renamed destination
path; executing that copy leaves the source's content at the renamed path
and leaves the original destination path untouched, so the pre-run
destination bytes remain recoverable at the original destination path. -/
theorem C2_amended_conflict_preserves_dst (env : HashEnv) (stamp : String)
    (src_root dst_root : String) (src_stats dst_stats : List (String × FileStat))
    (use_hash delete_extraneous : Bool)
    (known_src known_dst : List (String × FileState))
    (fs : ContentFS) (rel : String) (s d : FileStat)
    (hs : dictGet src_stats rel = some s) (hd : dictGet dst_stats rel = some d)
    (hcs : stat_changed s (dictGet known_src rel) = true)
    (hcd : stat_changed d (dictGet known_dst rel) = true) :
    (pathJoin src_root rel, conflict_dst_path stamp (pathJoin dst_root rel), rel,
        s.size_bytes)
      ∈ (plan_bidirectional env stamp src_root dst_root src_stats dst_stats
          use_hash delete_extraneous known_src known_dst).conflicts ∧
    apply_copy fs (pathJoin src_root rel) (conflict_dst_path stamp (pathJoin dst_root rel))
        (conflict_dst_path stamp (pathJoin dst_root rel)) = fs (pathJoin src_root rel) ∧
    apply_copy fs (pathJoin src_root rel) (conflict_dst_path stamp (pathJoin dst_root rel))
        (pathJoin dst_root rel) = fs (pathJoin dst_root rel) := by
  have hap : rel ∈ allPaths src_stats dst_stats := by
    unfold allPaths
    rw [List.mem_dedup]
    exact List.mem_append.mpr
      (Or.inl (List.mem_map.mpr ⟨(rel, s), mem_of_dictGet_eq_some hs, rfl⟩))
  have hcl : classify_bidi env stamp src_root dst_root src_stats dst_stats use_hash
      delete_extraneous known_src known_dst rel =
      some (.conflictI (pathJoin src_root rel,
        conflict_dst_path stamp (pathJoin dst_root rel), rel, s.size_bytes)) := by
    simp [classify_bidi, hs, hd, hcs, hcd]
  refine ⟨?_, ?_, ?_⟩
  · simp only [plan_bidirectional]
    exact List.mem_filterMap.mpr ⟨rel, hap, by rw [hcl]⟩
  · simp [apply_copy]
  · have hne : pathJoin dst_root rel ≠ conflict_dst_path stamp (pathJoin dst_root rel) :=
      Ne.symm (conflict_dst_path_ne stamp (pathJoin dst_root rel))
    simp [apply_copy, hne]

/-- Witness for C2 (amended) at the same concrete conflict scenario. -/
theorem C2_amended_conflict_preserves_dst_witness :
    ("S/a", conflict_dst_path "TS" "D/a", "a", 2)
      ∈ (plan_bidirectional ⟨fun _ => none, fun _ => ""⟩ "TS" "S" "D"
          [("a", ⟨"a", 2, 5, none⟩)] [("a", ⟨"a", 2, 7, none⟩)] false false [] []).conflicts ∧
    apply_copy (fun _ => some [3]) "S/a" (conflict_dst_path "TS" "D/a") "D/a" = some [3] := by
  have h := C2_amended_conflict_preserves_dst ⟨fun _ => none, fun _ => ""⟩ "TS" "S" "D"
    [("a", ⟨"a", 2, 5, none⟩)] [("a", ⟨"a", 2, 7, none⟩)] false false [] []
    (fun _ => some [3]) "a" ⟨"a", 2, 5, none⟩ ⟨"a", 2, 7, none⟩
    (by rfl) (by rfl) (by rfl) (by rfl)
  exact ⟨h.1, h.2.2⟩

/-- Claim C1 counterexample: with direction source_to_dest and
delete_extraneous off, a path observed only in the destination snapshot is
classified in none of the four plan lists — it is omitted, contradicting the
claim that every observed path lands in exactly one list. -/
theorem C1_counterexample_omitted_path :
    relCount "D" (compare_trees ⟨fun _ => none, fun _ => ""⟩ "TS" "S" "D" []
      [("a", ⟨"a", 1, 1, none⟩)] "source_to_dest" false false [] []) "a" = 0 ∧
    "a" ∈ ([("a", (⟨"a", 1, 1, none⟩ : FileStat))].map Prod.fst) := by
  constructor
  · decide
  · decide

/-- Claim C1 (amended): no relative path ever appears in more than one plan
list; in bidirectional mode every path observed in either snapshot is
classified in exactly one of the four lists; in the one-way modes every path
present in the authoritative ("from") snapshot is classified in exactly one
list, while a path present only on the other side is classified (as a
delete) iff delete_extraneous is set and otherwise appears in no list. -/
theorem C1_amended_partition (env : HashEnv) (stamp sr dr : String)
    (ss ds : List (String × FileStat)) (uh dex : Bool)
    (ks kd : List (String × FileState))
    (hns : (ss.map Prod.fst).Nodup) (hnd : (ds.map Prod.fst).Nodup) :
    (∀ rel, (rel ∈ ss.map Prod.fst ∨ rel ∈ ds.map Prod.fst) →
      relCount dr (compare_trees env stamp sr dr ss ds "bidirectional" uh dex ks kd)
        rel = 1) ∧
    (∀ rel, rel ∈ ss.map Prod.fst →
      relCount dr (compare_trees env stamp sr dr ss ds "source_to_dest" uh dex ks kd)
        rel = 1) ∧
    (∀ rel, rel ∉ ss.map Prod.fst →
      relCount dr (compare_trees env stamp sr dr ss ds "source_to_dest" uh dex ks kd)
        rel = if dex = true ∧ rel ∈ ds.map Prod.fst then 1 else 0) ∧
    (∀ rel, rel ∈ ds.map Prod.fst →
      relCount sr (compare_trees env stamp sr dr ss ds "dest_to_source" uh dex ks kd)
        rel = 1) ∧
    (∀ rel, rel ∉ ds.map Prod.fst →
      relCount sr (compare_trees env stamp sr dr ss ds "dest_to_source" uh dex ks kd)
        rel = if dex = true ∧ rel ∈ ss.map Prod.fst then 1 else 0) := by
  have hb : compare_trees env stamp sr dr ss ds "bidirectional" uh dex ks kd =
      plan_bidirectional env stamp sr dr ss ds uh dex ks kd := by
    simp [compare_trees]
  have hs2d : compare_trees env stamp sr dr ss ds "source_to_dest" uh dex ks kd =
      plan_one_way env sr dr ss ds uh dex := by
    simp [compare_trees]
  have hd2s : compare_trees env stamp sr dr ss ds "dest_to_source" uh dex ks kd =
      plan_one_way env dr sr ds ss uh dex := by
    simp [compare_trees]
  refine ⟨?_, ?_, ?_, ?_, ?_⟩
  · intro rel hobs
    rw [hb]
    exact relCount_bidi (mem_allPaths.mpr hobs)
  · intro rel h
    rw [hs2d]
    exact relCount_one_way_from hns h
  · intro rel h
    rw [hs2d]
    exact relCount_one_way_other h
  · intro rel h
    rw [hd2s]
    exact relCount_one_way_from hnd h
  · intro rel h
    rw [hd2s]
    exact relCount_one_way_other h

/-- Witness for C1 (amended) at concrete snapshots. -/
theorem C1_amended_partition_witness :
    relCount "D" (compare_trees ⟨fun _ => none, fun _ => ""⟩ "TS" "S" "D"
      [("a", ⟨"a", 1, 1, none⟩)] [("b", ⟨"b", 2, 2, none⟩)]
      "bidirectional" false false [] []) "a" = 1 ∧
    relCount "D" (compare_trees ⟨fun _ => none, fun _ => ""⟩ "TS" "S" "D"
      [("a", ⟨"a", 1, 1, none⟩)] [("b", ⟨"b", 2, 2, none⟩)]
      "source_to_dest" false false [] []) "a" = 1 ∧
    relCount "D" (compare_trees ⟨fun _ => none, fun _ => ""⟩ "TS" "S" "D"
      [("a", ⟨"a", 1, 1, none⟩)] [("b", ⟨"b", 2, 2, none⟩)]
      "source_to_dest" false false [] []) "b" = 0 := by
  have h := C1_amended_partition ⟨fun _ => none, fun _ => ""⟩ "TS" "S" "D"
    [("a", ⟨"a", 1, 1, none⟩)] [("b", ⟨"b", 2, 2, none⟩)] false false [] []
    (by decide) (by decide)
  refine ⟨h.1 "a" (Or.inl (by decide)), h.2.1 "a" (by decide), ?_⟩
  have h3 := h.2.2.1 "b" (by decide)
  simpa using h3

/-- Claim C5: executing a one-way plan to completion (every copy succeeding
with the source metadata preserved onto the destination, every delete
succeeding) and then recomputing the one-way plan over the resulting trees
yields only skip entries: the new plan's to_copy, to_delete, and conflicts
lists are all empty. -/
theorem C5_one_way_idempotent (env : HashEnv) (fr tr : String)
    (fs ts : List (String × FileStat)) (uh dex : Bool)
    (hn : (fs.map Prod.fst).Nodup) :
    (plan_one_way env fr tr fs (exec_one_way env fr tr fs ts uh dex) uh dex).to_copy
      = [] ∧
    (plan_one_way env fr tr fs (exec_one_way env fr tr fs ts uh dex) uh dex).to_delete
      = [] ∧
    (plan_one_way env fr tr fs (exec_one_way env fr tr fs ts uh dex) uh dex).conflicts
      = [] := by
  have hskip : ∀ p ∈ fs,
      classify_one_way env fr tr (exec_one_way env fr tr fs ts uh dex) uh p =
        .skipI (pathJoin fr p.1, pathJoin tr p.1, p.1, p.2.size_bytes) := by
    intro p hp
    have hmem : (p.1, p.2) ∈ fs := hp
    have hdg := @dictGet_exec_one_way env fr tr fs ts uh dex p.1 p.2 hn hmem
    rcases classify_one_way_cases env fr tr ts uh p with hc | hc
    · have hex : (execStat env fr tr ts uh (p.1, p.2)).2 = p.2 := by
        show (execStat env fr tr ts uh p).2 = p.2
        unfold execStat
        rw [hc]
      have hdg2 : dictGet (exec_one_way env fr tr fs ts uh dex) p.1 = some p.2 := by
        rw [hdg, hex]
      simp [classify_one_way, hdg2, files_differ_self]
    · have hcopy := hc
      unfold classify_one_way at hcopy
      cases hdgt : dictGet ts p.1 with
      | none =>
        rw [hdgt] at hcopy
        exact absurd hcopy (by simp)
      | some t =>
        rw [hdgt] at hcopy
        dsimp only at hcopy
        by_cases hdiff :
            files_differ env (pathJoin fr p.1) (pathJoin tr p.1) p.2 t uh = true
        · rw [if_pos hdiff] at hcopy
          exact absurd hcopy (by simp)
        · simp only [Bool.not_eq_true] at hdiff
          have hex : (execStat env fr tr ts uh (p.1, p.2)).2 = t := by
            show (execStat env fr tr ts uh p).2 = t
            unfold execStat
            rw [hc]
            simp [hdgt]
          have hdg2 : dictGet (exec_one_way env fr tr fs ts uh dex) p.1 = some t := by
            rw [hdg, hex]
          simp [classify_one_way, hdg2, hdiff]
  refine ⟨?_, ?_, rfl⟩
  · simp only [plan_one_way]
    rw [List.filterMap_eq_nil_iff]
    intro p hp
    rw [hskip p hp]
  · simp only [plan_one_way]
    cases dex with
    | false => simp
    | true =>
      simp only [if_true]
      rw [List.filterMap_eq_nil_iff]
      intro q hq
      unfold exec_one_way at hq
      simp only [if_true, List.append_nil, List.mem_map] at hq
      obtain ⟨p, hp, hpq⟩ := hq
      have hq1 : q.1 = p.1 := by
        rw [← hpq]
        exact execStat_fst env fr tr ts uh p
      obtain ⟨v, hv⟩ := dictGet_isSome_of_mem_keys
        (List.mem_map_of_mem Prod.fst hp)
      rw [hq1, hv]

/-- Witness for C5 at a concrete source tree and empty destination. -/
theorem C5_one_way_idempotent_witness :
    (plan_one_way ⟨fun _ => none, fun _ => ""⟩ "S" "D" [("a", ⟨"a", 3, 100, none⟩)]
      (exec_one_way ⟨fun _ => none, fun _ => ""⟩ "S" "D" [("a", ⟨"a", 3, 100, none⟩)]
        [] false false) false false).to_copy = [] ∧
    (plan_one_way ⟨fun _ => none, fun _ => ""⟩ "S" "D" [("a", ⟨"a", 3, 100, none⟩)]
      (exec_one_way ⟨fun _ => none, fun _ => ""⟩ "S" "D" [("a", ⟨"a", 3, 100, none⟩)]
        [] false false) false false).to_delete = [] ∧
    (plan_one_way ⟨fun _ => none, fun _ => ""⟩ "S" "D" [("a", ⟨"a", 3, 100, none⟩)]
      (exec_one_way ⟨fun _ => none, fun _ => ""⟩ "S" "D" [("a", ⟨"a", 3, 100, none⟩)]
        [] false false) false false).conflicts = [] :=
  C5_one_way_idempotent ⟨fun _ => none, fun _ => ""⟩ "S" "D"
    [("a", ⟨"a", 3, 100, none⟩)] [] false false (by decide)

end SyncTool
